import Mathlib

/-!
Verification development for the RustWave repository.

The repository contains two source files: `src/server/src/db/connection.rs`,
a placeholder module whose comment describes an intended database connection
management subsystem (connection pool with limits, health checks and
recovery) but contains no executable code, and `src/server/src/auth/jwt.rs`,
which holds a SQL migration creating a `users` table with uniqueness and
format constraints.

Since the pool implementation is absent from the sources, the pool model
below is built from the specification document, definition by definition.
The `users` table model is built from the SQL DDL in the source.
-/

namespace RustWave

/-- Modelled from the spec: the pool implementation is missing from
`src/server/src/db/connection.rs` (a placeholder comment). Lifecycle states
of a pooled connection (spec section 3, PooledConnection.state). -/
inductive ConnState where
  | Idle
  | InUse
  | Validating
  | Broken
deriving DecidableEq, Repr

/-- A connection counts toward `open_count` when Idle, InUse or Validating
(spec section 4.3, sizing policy). -/
def ConnState.isOpen : ConnState → Bool
  | .Idle => true
  | .InUse => true
  | .Validating => true
  | .Broken => false

/-- True exactly on the Idle state. -/
def ConnState.isIdle : ConnState → Bool
  | .Idle => true
  | _ => false

/-- True exactly on the InUse state. -/
def ConnState.isInUse : ConnState → Bool
  | .InUse => true
  | _ => false

/-- Modelled from the spec: pool configuration (spec section 3, PoolConfig).
Durations are modelled as natural numbers of abstract time units; the
retry backoff parameters are not needed by any claim and are omitted. -/
structure PoolConfig where
  min_idle : Nat
  max_open : Nat
  acquire_timeout : Nat
  idle_timeout : Nat
  max_lifetime : Nat
  health_check_interval : Nat
deriving DecidableEq, Repr

/-- Modelled from the spec: a pooled connection (spec section 3,
PooledConnection). The physical connection resource is abstracted; the
`healthy` flag models whether the underlying physical connection is still
usable, which the health checker observes. -/
structure PooledConnection where
  id : Nat
  created_at : Nat
  last_used_at : Nat
  last_health_check : Nat
  healthy : Bool
  state : ConnState
deriving DecidableEq, Repr

/-- Modelled from the spec: pool lifecycle states (spec section 3,
PoolState; section 4.4 state machine). -/
inductive PoolLifecycle where
  | Starting
  | Ready
  | Draining
  | Closed
deriving DecidableEq, Repr

/-- Modelled from the spec: a queued acquire request (spec section 3,
AcquireRequest), with a waiter identity used to express FIFO order. -/
structure Waiter where
  id : Nat
  enqueued_at : Nat
  timeout_deadline : Nat
deriving DecidableEq, Repr

/-- Modelled from the spec: the pool state (spec sections 3 and 4.3): the
set of connections, the FIFO waiter queue, the lifecycle state, the current
time, and fresh-id counters for connections and waiters. -/
structure Pool where
  config : PoolConfig
  conns : List PooledConnection
  waiters : List Waiter
  lifecycle : PoolLifecycle
  now : Nat
  nextId : Nat
  nextWaiterId : Nat
deriving DecidableEq, Repr

/-- Number of open (Idle + InUse + Validating) connections in a list. -/
def openCountL (l : List PooledConnection) : Nat :=
  l.countP (fun c => c.state.isOpen)

/-- Modelled from the spec: `open_count` (spec section 4.3, sizing policy). -/
def openCount (p : Pool) : Nat :=
  openCountL p.conns

/-- Number of InUse connections. -/
def inUseCount (p : Pool) : Nat :=
  p.conns.countP (fun c => c.state.isInUse)

/-- Acquire errors (spec section 7). The transient PoolExhausted case is
internal to acquire and never surfaces, so only Timeout and Closed appear. -/
inductive AcquireError where
  | Timeout
  | Closed
deriving DecidableEq, Repr

/-- Release contract-violation errors (spec section 7: releasing an unknown
or already-idle connection is a distinct error class, reported not
ignored). -/
inductive ReleaseError where
  | unknownId
  | notInUse
deriving DecidableEq, Repr

/-- Result of an acquire call: a granted connection id, a queued waiter
(the call suspends), or a failure. -/
inductive AcquireResult where
  | granted (connId : Nat)
  | enqueued (waiterId : Nat)
  | failed (e : AcquireError)
deriving DecidableEq, Repr

/-- Result of a successful release: the connection was handed directly to
the oldest waiter, or returned to the idle set. -/
inductive ReleaseOutcome where
  | handedTo (waiterId : Nat)
  | returnedToIdle
deriving DecidableEq, Repr

/-- A freshly opened connection (spec section 4.1: the factory returns a
connection already past handshake and validation). -/
def freshConn (id now : Nat) (st : ConnState) : PooledConnection :=
  { id := id, created_at := now, last_used_at := now,
    last_health_check := now, healthy := true, state := st }

/-- Find the first Idle healthy connection, mark it InUse, and return its
id together with the updated list (spec section 4.3, acquire fast path). -/
def grabIdle (now : Nat) : List PooledConnection →
    Option (Nat × List PooledConnection)
  | [] => none
  | c :: rest =>
    if c.state.isIdle && c.healthy then
      some (c.id, { c with state := ConnState.InUse, last_used_at := now } :: rest)
    else
      match grabIdle now rest with
      | some (i, rest') => some (i, c :: rest')
      | none => none

/-- Modelled from the spec: `acquire(timeout)` (spec section 4.3). If the
pool is Draining or Closed the call fails with Closed. Otherwise an Idle
healthy connection is handed out if one exists; else a new connection is
opened when `open_count < max_open`; else the pool is exhausted: with
`timeout = 0` the call fails immediately with Timeout, with `max_open = 0`
no connection can ever be produced so the call is rejected deterministically
with Timeout (spec section 8, round-trip property), and otherwise the caller
is enqueued at the back of the FIFO waiter queue. -/
def acquire (timeout : Nat) (p : Pool) : AcquireResult × Pool :=
  if p.lifecycle = PoolLifecycle.Draining ∨ p.lifecycle = PoolLifecycle.Closed then
    (AcquireResult.failed AcquireError.Closed, p)
  else
    match grabIdle p.now p.conns with
    | some (i, conns') => (AcquireResult.granted i, { p with conns := conns' })
    | none =>
      if openCount p < p.config.max_open then
        (AcquireResult.granted p.nextId,
         { p with conns := p.conns ++ [freshConn p.nextId p.now ConnState.InUse],
                  nextId := p.nextId + 1 })
      else if timeout = 0 then
        (AcquireResult.failed AcquireError.Timeout, p)
      else if p.config.max_open = 0 then
        (AcquireResult.failed AcquireError.Timeout, p)
      else
        (AcquireResult.enqueued p.nextWaiterId,
         { p with waiters := p.waiters ++
                    [{ id := p.nextWaiterId, enqueued_at := p.now,
                       timeout_deadline := p.now + timeout }],
                  nextWaiterId := p.nextWaiterId + 1 })

/-- Update the state and `last_used_at` of the first connection with the
given id. -/
def setConnState (connId : Nat) (st : ConnState) (lastUsed : Nat) :
    List PooledConnection → List PooledConnection
  | [] => []
  | c :: rest =>
    if c.id = connId then
      { c with state := st, last_used_at := lastUsed } :: rest
    else
      c :: setConnState connId st lastUsed rest

/-- Modelled from the spec: `release(conn)` (spec section 4.3). Unknown or
not-InUse ids are a programming-contract violation, reported as an error
with the pool unchanged. A healthy released connection is handed to the
oldest waiter when the queue is nonempty, instead of being returned to the
idle set; otherwise it is marked Idle with `last_used_at` updated. -/
def release (connId : Nat) (p : Pool) :
    Except ReleaseError (ReleaseOutcome × Pool) :=
  match p.conns.find? (fun c => c.id == connId) with
  | none => Except.error ReleaseError.unknownId
  | some c =>
    if c.state = ConnState.InUse then
      match p.waiters with
      | w :: ws =>
        if c.healthy then
          Except.ok (ReleaseOutcome.handedTo w.id,
            { p with conns := setConnState connId ConnState.InUse p.now p.conns,
                     waiters := ws })
        else
          Except.ok (ReleaseOutcome.returnedToIdle,
            { p with conns := setConnState connId ConnState.Idle p.now p.conns })
      | [] =>
        Except.ok (ReleaseOutcome.returnedToIdle,
          { p with conns := setConnState connId ConnState.Idle p.now p.conns })
    else
      Except.error ReleaseError.notInUse

/-- Modelled from the spec: `shutdown` (spec section 4.4). A no-op while
already Draining or Closed; otherwise the pool enters Draining (queued
waiters fail with Closed and are dropped), moving straight to Closed when
no connection is InUse. -/
def shutdown (p : Pool) : Pool :=
  if p.lifecycle = PoolLifecycle.Draining ∨ p.lifecycle = PoolLifecycle.Closed then
    p
  else if inUseCount p = 0 then
    { p with lifecycle := PoolLifecycle.Closed, conns := [], waiters := [] }
  else
    { p with lifecycle := PoolLifecycle.Draining, waiters := [] }

/-- Modelled from the spec: completion of draining (spec section 4.4): a
Draining pool whose InUse connections have all been released transitions to
Closed with all connections closed. -/
def drainStep (p : Pool) : Pool :=
  if p.lifecycle = PoolLifecycle.Draining ∧ inUseCount p = 0 then
    { p with lifecycle := PoolLifecycle.Closed, conns := [] }
  else p

/-- A connection is expired for the idle-eviction sweep when it has been
unused longer than `idle_timeout` or alive longer than `max_lifetime`
(spec section 4.3, idle eviction). -/
def expired (cfg : PoolConfig) (now : Nat) (c : PooledConnection) : Bool :=
  decide (cfg.idle_timeout < now - c.last_used_at) ||
  decide (cfg.max_lifetime < now - c.created_at)

/-- Eviction pass over the connection list: `cnt` is the number of open
connections among the kept-so-far and remaining ones; an expired Idle
connection is closed only while `cnt` exceeds `min_idle`. -/
def evictLoop (cfg : PoolConfig) (now : Nat) :
    Nat → List PooledConnection → List PooledConnection
  | _, [] => []
  | cnt, c :: rest =>
    if c.state.isIdle && expired cfg now c && decide (cfg.min_idle < cnt) then
      evictLoop cfg now (cnt - 1) rest
    else
      c :: evictLoop cfg now cnt rest

/-- Modelled from the spec: the background idle-eviction sweep (spec
section 4.3): closes expired Idle connections, but never drops below
`min_idle` open connections and never evicts while requests are queued. -/
def evictSweep (p : Pool) : Pool :=
  if p.waiters.isEmpty then
    { p with conns := evictLoop p.config p.now (openCount p) p.conns }
  else p

/-- Open one fresh Idle connection (factory call during replenishment). -/
def openFresh (p : Pool) : Pool :=
  { p with conns := p.conns ++ [freshConn p.nextId p.now ConnState.Idle],
           nextId := p.nextId + 1 }

/-- Modelled from the spec: replacement up to `min_idle` after disposal of
a broken connection (spec section 4.2), subject to the `max_open` cap. The
fuel argument bounds the number of factory calls. -/
def replenish : Nat → Pool → Pool
  | 0, p => p
  | Nat.succ n, p =>
    if openCount p < p.config.min_idle ∧ openCount p < p.config.max_open then
      replenish n (openFresh p)
    else p

/-- Modelled from the spec: disposal of a connection that failed a health
check (spec section 4.2): it transitions to Broken, is closed and removed
from the pool, and the pool then attempts replacement up to `min_idle`. -/
def onHealthCheckFailure (connId : Nat) (p : Pool) : Pool :=
  if (p.conns.find? (fun c => c.id == connId)).isSome then
    replenish p.config.min_idle
      { p with conns := p.conns.filter (fun c => !(c.id == connId)) }
  else p

/-- Modelled from the spec: pool construction with pre-warm (spec sections
4.3 and 6): `min_idle` connections are opened eagerly at startup and the
pool becomes Ready. -/
def newPool (cfg : PoolConfig) : Pool :=
  { config := cfg,
    conns := (List.range cfg.min_idle).map (fun i => freshConn i 0 ConnState.Idle),
    waiters := [],
    lifecycle := PoolLifecycle.Ready,
    now := 0,
    nextId := cfg.min_idle,
    nextWaiterId := 0 }

/-- The operations that can act on a pool, for reasoning about sequences
of calls. -/
inductive PoolOp where
  | opAcquire (timeout : Nat)
  | opRelease (connId : Nat)
  | opShutdown
  | opDrain
  | opEvict
  | opHealthFail (connId : Nat)
  | opTick (d : Nat)
deriving DecidableEq, Repr

/-- One step of the pool under an operation. A release that fails with a
contract-violation error leaves the pool unchanged. -/
def PoolOp.step (p : Pool) : PoolOp → Pool
  | .opAcquire t => (acquire t p).2
  | .opRelease i =>
    match release i p with
    | Except.ok (_, p') => p'
    | Except.error _ => p
  | .opShutdown => shutdown p
  | .opDrain => drainStep p
  | .opEvict => evictSweep p
  | .opHealthFail i => onHealthCheckFailure i p
  | .opTick d => { p with now := p.now + d }

/-- Run a sequence of operations from a pool state. -/
def run (p : Pool) (ops : List PoolOp) : Pool :=
  ops.foldl PoolOp.step p

/-! ## The `users` table

Model of the SQL migration in `src/server/src/auth/jwt.rs`: the
`CREATE TABLE users` statement with its column defaults, NOT NULL
constraints, UNIQUE constraints and CHECK format constraints. -/

/-- A character of the email local-part class `[a-zA-Z0-9._%+-]`. -/
def isLocalChar (c : Char) : Bool :=
  c.isAlphanum || c == '.' || c == '_' || c == '%' || c == '+' || c == '-'

/-- A character of the email domain class `[a-zA-Z0-9.-]`. -/
def isDomainChar (c : Char) : Bool :=
  c.isAlphanum || c == '.' || c == '-'

/-- The part after the `@` must match `[a-zA-Z0-9.-]+\.[a-zA-Z]{2,}` in
full. Since the TLD piece `[a-zA-Z]{2,}` cannot contain a dot, the split
is at the last dot of the string. -/
def emailDomainOk (l : List Char) : Bool :=
  let rev := l.reverse
  let tldRev := rev.takeWhile (fun c => !(c == '.'))
  match rev.drop tldRev.length with
  | [] => false
  | _ :: domRev =>
    decide (2 ≤ tldRev.length) && tldRev.all Char.isAlpha &&
    !domRev.isEmpty && domRev.all isDomainChar

/-- The `email_format` CHECK constraint of the `users` table: full match
against `^[a-zA-Z0-9._%+-]+@[a-zA-Z0-9.-]+\.[a-zA-Z]{2,}$`. -/
def emailFormat (s : String) : Bool :=
  match s.data.splitOn '@' with
  | [localPart, domainFull] =>
    !localPart.isEmpty && localPart.all isLocalChar && emailDomainOk domainFull
  | _ => false

/-- The `username_format` CHECK constraint of the `users` table: full match
against `^[a-zA-Z0-9_]{1,50}$`. -/
def usernameFormat (s : String) : Bool :=
  decide (1 ≤ s.data.length) && decide (s.data.length ≤ 50) &&
  s.data.all (fun c => c.isAlphanum || c == '_')

/-- A stored row of the `users` table. Columns that the DDL declares NOT
NULL would always hold a value; they are modelled as `Option` so that the
NOT NULL guarantee is a provable property of reachable states rather than
a typing assumption. Timestamps are abstract natural numbers; the UUID id
is an abstract natural number. -/
structure UserRow where
  id : Nat
  email : Option String
  username : Option String
  password_hash : Option String
  email_verified : Option Bool
  email_verification_token : Option String
  email_verified_at : Option Nat
  is_active : Option Bool
  created_at : Option Nat
  updated_at : Option Nat
  last_sign_in_at : Option Nat
deriving DecidableEq, Repr

/-- The `users` table: a list of stored rows. -/
structure UsersTable where
  rows : List UserRow
deriving DecidableEq, Repr

/-- The empty `users` table, as created by the migration. -/
def emptyUsers : UsersTable := { rows := [] }

/-- Errors raised by the database when a statement violates a constraint. -/
inductive DbError where
  | notNullViolation
  | uniqueViolation
  | checkViolation
  | valueTooLong
deriving DecidableEq, Repr

/-- An INSERT statement's supplied column values; `none` means the column
was not supplied, so its DDL default (if any) applies. -/
structure InsertRequest where
  id : Option Nat
  email : Option String
  username : Option String
  password_hash : Option String
  email_verified : Option Bool
  email_verification_token : Option String
  email_verified_at : Option Nat
  is_active : Option Bool
  created_at : Option Nat
  updated_at : Option Nat
  last_sign_in_at : Option Nat
deriving DecidableEq, Repr

/-- The row an INSERT produces before constraint checking: unsupplied
columns receive their DDL defaults (`id DEFAULT gen_random_uuid()`
modelled by the `freshId` argument, `email_verified DEFAULT false`,
`is_active DEFAULT true`, `created_at`/`updated_at` `DEFAULT NOW()`
modelled by the `now` argument). -/
def rowOfRequest (req : InsertRequest) (freshId now : Nat) : UserRow :=
  { id := req.id.getD freshId,
    email := req.email,
    username := req.username,
    password_hash := req.password_hash,
    email_verified := some (req.email_verified.getD false),
    email_verification_token := req.email_verification_token,
    email_verified_at := req.email_verified_at,
    is_active := some (req.is_active.getD true),
    created_at := some (req.created_at.getD now),
    updated_at := some (req.updated_at.getD now),
    last_sign_in_at := req.last_sign_in_at }

/-- INSERT into `users`: enforces NOT NULL on `email`, `username` and
`password_hash`, the VARCHAR length limits, the two CHECK format
constraints, and uniqueness of `email`, `username` and the primary key. -/
def insertUser (t : UsersTable) (req : InsertRequest) (freshId now : Nat) :
    Except DbError UsersTable :=
  let r := rowOfRequest req freshId now
  match r.email, r.username, r.password_hash with
  | some e, some u, some _ =>
    if 255 < e.data.length then Except.error DbError.valueTooLong
    else if 50 < u.data.length then Except.error DbError.valueTooLong
    else if !(emailFormat e && usernameFormat u) then
      Except.error DbError.checkViolation
    else if t.rows.any (fun x =>
        x.email == some e || x.username == some u || x.id == r.id) then
      Except.error DbError.uniqueViolation
    else Except.ok { rows := t.rows ++ [r] }
  | _, _, _ => Except.error DbError.notNullViolation

/-- An UPDATE statement's new values for the constrained columns; `none`
means the column is not assigned by the statement. -/
structure UpdateRequest where
  email : Option String
  username : Option String
deriving DecidableEq, Repr

/-- The value a column holds after an UPDATE: the assigned value when the
statement assigns one, the stored value otherwise. -/
def assignedOr (assigned stored : Option String) : Option String :=
  match assigned with
  | some v => some v
  | none => stored

/-- UPDATE of the row with the given id (an UPDATE matching no row
succeeds and changes nothing), re-checking NOT NULL, lengths, the CHECK
constraints and uniqueness against all other rows. -/
def updateUser (t : UsersTable) (targetId : Nat) (ureq : UpdateRequest) :
    Except DbError UsersTable :=
  match t.rows.find? (fun x => x.id == targetId) with
  | none => Except.ok t
  | some r =>
    match assignedOr ureq.email r.email, assignedOr ureq.username r.username with
    | some e, some u =>
      if 255 < e.data.length then Except.error DbError.valueTooLong
      else if 50 < u.data.length then Except.error DbError.valueTooLong
      else if !(emailFormat e && usernameFormat u) then
        Except.error DbError.checkViolation
      else if t.rows.any (fun x =>
          !(x.id == targetId) && (x.email == some e || x.username == some u)) then
        Except.error DbError.uniqueViolation
      else
        Except.ok { rows := t.rows.map (fun x =>
          if x.id == targetId then
            { x with email := some e, username := some u }
          else x) }
    | _, _ => Except.error DbError.notNullViolation

/-- Statements that can act on the `users` table. -/
inductive DbOp where
  | opInsert (req : InsertRequest) (freshId now : Nat)
  | opUpdate (targetId : Nat) (ureq : UpdateRequest)
deriving DecidableEq, Repr

/-- One statement against the table: a statement rejected with an error
leaves the table unchanged. -/
def DbOp.stepTable (t : UsersTable) : DbOp → UsersTable
  | .opInsert req freshId now =>
    match insertUser t req freshId now with
    | Except.ok t' => t'
    | Except.error _ => t
  | .opUpdate targetId ureq =>
    match updateUser t targetId ureq with
    | Except.ok t' => t'
    | Except.error _ => t

/-- Run a sequence of statements from the freshly created table. -/
def runTable (ops : List DbOp) : UsersTable :=
  ops.foldl DbOp.stepTable emptyUsers

/-! ## Invariant predicates and concrete instances -/

/-- The id is absent from the pool and below the fresh-id counter, so no
present or future connection can carry it. -/
def NotIn (i : Nat) (p : Pool) : Prop :=
  i < p.nextId ∧ ∀ c ∈ p.conns, c.id ≠ i

/-- The waiter queue is in strict enqueue order (ids are assigned from an
increasing counter) and all queued ids are below the counter. -/
def WaiterInv (p : Pool) : Prop :=
  p.waiters.Pairwise (fun a b => a.id < b.id) ∧
  ∀ w ∈ p.waiters, w.id < p.nextWaiterId

/-- Both CHECK format constraints hold on a stored row. -/
def RowFormatsOk (r : UserRow) : Prop :=
  (∃ e, r.email = some e ∧ emailFormat e = true) ∧
  (∃ u, r.username = some u ∧ usernameFormat u = true)

/-- The constraints of the `users` table claimed as invariants: every row
has a well-formed email and username, and no two rows share an email or a
username. -/
def TableOk (t : UsersTable) : Prop :=
  (∀ r ∈ t.rows, RowFormatsOk r) ∧
  t.rows.Pairwise (fun a b => a.email ≠ b.email ∧ a.username ≠ b.username)

/-- The inductive invariant of the `users` table: `TableOk` strengthened
with NOT NULL of `password_hash` and primary-key uniqueness. -/
def TableInv (t : UsersTable) : Prop :=
  (∀ r ∈ t.rows, RowFormatsOk r ∧ r.password_hash.isSome = true) ∧
  t.rows.Pairwise (fun a b => a.email ≠ b.email ∧ a.username ≠ b.username ∧ a.id ≠ b.id)

/-- A configuration with `min_idle = 2` and `max_open = 5` (the idle
eviction example of the spec). -/
def cfgEvict : PoolConfig :=
  { min_idle := 2, max_open := 5, acquire_timeout := 10,
    idle_timeout := 100, max_lifetime := 1000, health_check_interval := 50 }

/-- The idle-eviction scenario of the spec: open 5 connections, release
all of them, wait past `idle_timeout`, then run the eviction sweep. -/
def opsEvict : List PoolOp :=
  [PoolOp.opAcquire 1, PoolOp.opAcquire 1, PoolOp.opAcquire 1,
   PoolOp.opAcquire 1, PoolOp.opAcquire 1,
   PoolOp.opRelease 0, PoolOp.opRelease 1, PoolOp.opRelease 2,
   PoolOp.opRelease 3, PoolOp.opRelease 4,
   PoolOp.opTick 101, PoolOp.opEvict]

/-- A configuration with a single connection (`max_open = 1`). -/
def cfgOne : PoolConfig :=
  { min_idle := 0, max_open := 1, acquire_timeout := 10,
    idle_timeout := 100, max_lifetime := 1000, health_check_interval := 50 }

/-- The FIFO scenario of the spec: with `max_open = 1`, the single
connection is InUse and waiters A (id 0) and B (id 1) are queued. -/
def poolBusy : Pool :=
  run (newPool cfgOne) [PoolOp.opAcquire 1, PoolOp.opAcquire 9, PoolOp.opAcquire 9]

/-- A pool with one InUse connection and one queued waiter. -/
def poolWithWaiter : Pool :=
  run (newPool cfgOne) [PoolOp.opAcquire 1, PoolOp.opAcquire 9]

/-- An exhausted pool: the single connection is InUse, no idle
connections. -/
def poolExhausted : Pool :=
  run (newPool cfgOne) [PoolOp.opAcquire 1]

/-- A pool that has completed shutdown. -/
def poolClosed : Pool :=
  shutdown (newPool cfgEvict)

/-- A configuration with `min_idle = 0` and `max_open = 0` (the
round-trip rejection example of the spec). -/
def cfgZero : PoolConfig :=
  { min_idle := 0, max_open := 0, acquire_timeout := 10,
    idle_timeout := 100, max_lifetime := 1000, health_check_interval := 50 }

/-- A well-formed INSERT request supplying only the mandatory columns. -/
def reqAlice : InsertRequest :=
  { id := none, email := some "alice@example.com", username := some "alice",
    password_hash := some "hash1", email_verified := none,
    email_verification_token := none, email_verified_at := none,
    is_active := none, created_at := none, updated_at := none,
    last_sign_in_at := none }

/-- An INSERT request with an email violating the CHECK constraint. -/
def reqBadEmail : InsertRequest :=
  { id := none, email := some "not-an-email", username := some "bob",
    password_hash := some "hash2", email_verified := none,
    email_verification_token := none, email_verified_at := none,
    is_active := none, created_at := none, updated_at := none,
    last_sign_in_at := none }

/-! ## Counting lemmas for the pool -/

theorem isOpen_of_isIdle {s : ConnState} (h : s.isIdle = true) : s.isOpen = true := by
  cases s <;> simp [ConnState.isIdle, ConnState.isOpen] at h ⊢

theorem openCountL_cons (c : PooledConnection) (l : List PooledConnection) :
    openCountL (c :: l) = openCountL l + if c.state.isOpen then 1 else 0 := by
  simp [openCountL, List.countP_cons]

theorem openCountL_append (l1 l2 : List PooledConnection) :
    openCountL (l1 ++ l2) = openCountL l1 + openCountL l2 := by
  simp [openCountL, List.countP_append]

theorem grabIdle_openCountL {now : Nat} {l l' : List PooledConnection} {i : Nat}
    (h : grabIdle now l = some (i, l')) : openCountL l' = openCountL l := by
  induction l generalizing l' i with
  | nil => simp [grabIdle] at h
  | cons c rest ih =>
    rw [grabIdle] at h
    by_cases hc : (c.state.isIdle && c.healthy) = true
    · rw [if_pos hc] at h
      simp only [Option.some.injEq, Prod.mk.injEq] at h
      obtain ⟨_, h2⟩ := h
      subst h2
      rw [openCountL_cons, openCountL_cons]
      have hc2 := hc
      simp only [Bool.and_eq_true] at hc2
      have hidle : c.state.isOpen = true := isOpen_of_isIdle hc2.1
      rw [hidle]
      rfl
    · rw [if_neg hc] at h
      cases hr : grabIdle now rest with
      | none => rw [hr] at h; simp at h
      | some pr =>
        obtain ⟨j, rest'⟩ := pr
        rw [hr] at h
        simp only [Option.some.injEq, Prod.mk.injEq] at h
        obtain ⟨_, h2⟩ := h
        subst h2
        rw [openCountL_cons, openCountL_cons, ih hr]

theorem setConnState_openCountL {connId : Nat} {st : ConnState} {lu : Nat}
    {l : List PooledConnection} {c : PooledConnection}
    (hf : l.find? (fun x => x.id == connId) = some c)
    (hc : c.state.isOpen = true) (hst : st.isOpen = true) :
    openCountL (setConnState connId st lu l) = openCountL l := by
  induction l with
  | nil => simp at hf
  | cons x rest ih =>
    rw [setConnState]
    by_cases hx : x.id = connId
    · rw [if_pos hx]
      rw [List.find?_cons_of_pos _ (by simp [hx])] at hf
      simp only [Option.some.injEq] at hf
      subst hf
      rw [openCountL_cons, openCountL_cons]
      simp [hst, hc]
    · rw [if_neg hx]
      rw [List.find?_cons_of_neg _ (by simp [hx])] at hf
      rw [openCountL_cons, openCountL_cons, ih hf]

theorem newPool_openCount (cfg : PoolConfig) :
    openCount (newPool cfg) = cfg.min_idle := by
  rw [openCount, newPool, openCountL]
  rw [List.countP_eq_length.mpr]
  · simp
  · intro a ha
    simp only [List.mem_map] at ha
    obtain ⟨i, _, rfl⟩ := ha
    rfl

theorem openFresh_openCount (p : Pool) :
    openCount (openFresh p) = openCount p + 1 := by
  rw [openCount, openFresh]
  show openCountL (p.conns ++ [freshConn p.nextId p.now ConnState.Idle]) = _
  rw [openCountL_append]
  rfl

theorem openFresh_config (p : Pool) : (openFresh p).config = p.config := rfl

theorem replenish_config (n : Nat) (p : Pool) :
    (replenish n p).config = p.config := by
  induction n generalizing p with
  | zero => rfl
  | succ n ih =>
    rw [replenish]
    split
    · rw [ih, openFresh_config]
    · rfl

theorem replenish_cap {n : Nat} {p : Pool}
    (h : openCount p ≤ p.config.max_open) :
    openCount (replenish n p) ≤ p.config.max_open := by
  induction n generalizing p with
  | zero => exact h
  | succ n ih =>
    rw [replenish]
    split
    · next hcond =>
      have h2 : openCount (openFresh p) ≤ (openFresh p).config.max_open := by
        rw [openFresh_openCount, openFresh_config]
        exact hcond.2
      have := ih h2
      rwa [openFresh_config] at this
    · exact h

theorem replenish_min {n : Nat} {p : Pool}
    (hmm : p.config.min_idle ≤ p.config.max_open)
    (h : p.config.min_idle ≤ openCount p + n) :
    p.config.min_idle ≤ openCount (replenish n p) := by
  induction n generalizing p with
  | zero => simpa using h
  | succ n ih =>
    rw [replenish]
    split
    · next hcond =>
      have hmm2 : (openFresh p).config.min_idle ≤ (openFresh p).config.max_open := by
        rw [openFresh_config]; exact hmm
      have h2 : (openFresh p).config.min_idle ≤ openCount (openFresh p) + n := by
        rw [openFresh_openCount, openFresh_config]; omega
      have := ih hmm2 h2
      rwa [openFresh_config] at this
    · next hcond =>
      rw [not_and_or, not_lt, not_lt] at hcond
      omega

theorem evictLoop_openCountL_le (cfg : PoolConfig) (now : Nat)
    (l : List PooledConnection) (cnt : Nat) :
    openCountL (evictLoop cfg now cnt l) ≤ openCountL l := by
  induction l generalizing cnt with
  | nil => simp [evictLoop]
  | cons c rest ih =>
    rw [evictLoop]
    split
    · next hcond =>
      calc openCountL (evictLoop cfg now (cnt - 1) rest) ≤ openCountL rest := ih _
        _ ≤ openCountL (c :: rest) := by rw [openCountL_cons]; omega
    · rw [openCountL_cons, openCountL_cons]
      have := ih cnt
      omega

theorem evictLoop_min (cfg : PoolConfig) (now : Nat)
    (l : List PooledConnection) (cnt k : Nat)
    (h : cnt = openCountL l + k) :
    min cfg.min_idle cnt ≤ openCountL (evictLoop cfg now cnt l) + k := by
  induction l generalizing cnt k with
  | nil =>
    rw [evictLoop]
    have h0 : openCountL ([] : List PooledConnection) = 0 := rfl
    omega
  | cons c rest ih =>
    rw [evictLoop]
    split
    · next hcond =>
      have hcond' := hcond
      simp only [Bool.and_eq_true, decide_eq_true_eq] at hcond'
      obtain ⟨⟨hidle, _⟩, hlt⟩ := hcond'
      have hopen : c.state.isOpen = true := isOpen_of_isIdle hidle
      have hcnt : openCountL (c :: rest) = openCountL rest + 1 := by
        rw [openCountL_cons, hopen]; simp
      have h2 : cnt - 1 = openCountL rest + k := by omega
      have := ih (cnt - 1) k h2
      omega
    · next hcond =>
      rw [openCountL_cons]
      rw [openCountL_cons] at h
      by_cases hopen : c.state.isOpen = true
      · rw [hopen] at h ⊢
        have h2 : cnt = openCountL rest + (k + 1) := by simp at h ⊢; omega
        have := ih cnt (k + 1) h2
        simp
        omega
      · rw [Bool.not_eq_true] at hopen
        rw [hopen] at h ⊢
        have h2 : cnt = openCountL rest + k := by simpa using h
        have := ih cnt k h2
        simp
        omega

theorem filter_openCountL_le (q : PooledConnection → Bool)
    (l : List PooledConnection) :
    openCountL (l.filter q) ≤ openCountL l := by
  rw [openCountL, openCountL]
  exact List.Sublist.countP_le _ (List.filter_sublist l)

/-! ## Step and run lemmas -/

theorem run_cons (p : Pool) (op : PoolOp) (ops : List PoolOp) :
    run p (op :: ops) = run (PoolOp.step p op) ops := rfl

theorem release_ok_openCount {i : Nat} {p : Pool} {res : ReleaseOutcome}
    {p' : Pool} (h : release i p = Except.ok (res, p')) :
    openCount p' = openCount p := by
  rw [release] at h
  split at h
  · exact absurd h (by simp)
  · next c hf =>
    split at h
    · next hInUse =>
      have hopen : c.state.isOpen = true := by rw [hInUse]; rfl
      split at h
      · split at h
        · simp only [Except.ok.injEq, Prod.mk.injEq] at h
          rw [← h.2]
          exact setConnState_openCountL hf hopen rfl
        · simp only [Except.ok.injEq, Prod.mk.injEq] at h
          rw [← h.2]
          exact setConnState_openCountL hf hopen rfl
      · simp only [Except.ok.injEq, Prod.mk.injEq] at h
        rw [← h.2]
        exact setConnState_openCountL hf hopen rfl
    · exact absurd h (by simp)

theorem step_config (p : Pool) (op : PoolOp) :
    (PoolOp.step p op).config = p.config := by
  cases op with
  | opAcquire t =>
    simp only [PoolOp.step]
    rw [acquire]
    split
    · rfl
    · split
      · rfl
      · split
        · rfl
        · split
          · rfl
          · split
            · rfl
            · rfl
  | opRelease i =>
    simp only [PoolOp.step]
    split
    · next res p' hrel =>
      rw [release] at hrel
      split at hrel
      · exact absurd hrel (by simp)
      · split at hrel
        · split at hrel
          · split at hrel
            · simp only [Except.ok.injEq, Prod.mk.injEq] at hrel
              rw [← hrel.2]
            · simp only [Except.ok.injEq, Prod.mk.injEq] at hrel
              rw [← hrel.2]
          · simp only [Except.ok.injEq, Prod.mk.injEq] at hrel
            rw [← hrel.2]
        · exact absurd hrel (by simp)
    · rfl
  | opShutdown =>
    simp only [PoolOp.step]
    rw [shutdown]
    split
    · rfl
    · split
      · rfl
      · rfl
  | opDrain =>
    simp only [PoolOp.step]
    rw [drainStep]
    split
    · rfl
    · rfl
  | opEvict =>
    simp only [PoolOp.step]
    rw [evictSweep]
    split
    · rfl
    · rfl
  | opHealthFail i =>
    simp only [PoolOp.step]
    rw [onHealthCheckFailure]
    split
    · rw [replenish_config]
    · rfl
  | opTick d => rfl

theorem step_cap {p : Pool} {op : PoolOp}
    (h : openCount p ≤ p.config.max_open) :
    openCount (PoolOp.step p op) ≤ p.config.max_open := by
  cases op with
  | opAcquire t =>
    simp only [PoolOp.step]
    rw [acquire]
    split
    · exact h
    · split
      · next i conns' hg =>
        show openCountL conns' ≤ p.config.max_open
        rw [grabIdle_openCountL hg]
        exact h
      · split
        · next hlt =>
          show openCountL (p.conns ++ [freshConn p.nextId p.now ConnState.InUse]) ≤ _
          rw [openCountL_append]
          have h1 : openCountL [freshConn p.nextId p.now ConnState.InUse] = 1 := rfl
          have h2 : openCountL p.conns = openCount p := rfl
          rw [h1, h2]
          omega
        · split
          · exact h
          · split
            · exact h
            · exact h
  | opRelease i =>
    simp only [PoolOp.step]
    split
    · next res p' hrel =>
      rw [show openCount p' = openCount p from release_ok_openCount hrel]
      exact h
    · exact h
  | opShutdown =>
    simp only [PoolOp.step]
    rw [shutdown]
    split
    · exact h
    · split
      · show openCountL [] ≤ _
        simp [openCountL]
      · exact h
  | opDrain =>
    simp only [PoolOp.step]
    rw [drainStep]
    split
    · show openCountL [] ≤ _
      simp [openCountL]
    · exact h
  | opEvict =>
    simp only [PoolOp.step]
    rw [evictSweep]
    split
    · show openCountL (evictLoop p.config p.now (openCount p) p.conns) ≤ _
      calc openCountL (evictLoop p.config p.now (openCount p) p.conns)
          ≤ openCountL p.conns := evictLoop_openCountL_le _ _ _ _
        _ ≤ p.config.max_open := h
    · exact h
  | opHealthFail i =>
    simp only [PoolOp.step]
    rw [onHealthCheckFailure]
    split
    · have h1 : openCount { p with conns := p.conns.filter (fun c => !(c.id == i)) } ≤
          ({ p with conns := p.conns.filter (fun c => !(c.id == i)) } : Pool).config.max_open := by
        show openCountL (p.conns.filter (fun c => !(c.id == i))) ≤ p.config.max_open
        calc openCountL (p.conns.filter (fun c => !(c.id == i)))
            ≤ openCountL p.conns := filter_openCountL_le _ _
          _ ≤ p.config.max_open := h
      exact replenish_cap h1
    · exact h
  | opTick d => exact h

theorem run_config (p : Pool) (ops : List PoolOp) :
    (run p ops).config = p.config := by
  induction ops generalizing p with
  | nil => rfl
  | cons op ops ih =>
    rw [run_cons, ih, step_config]

theorem run_cap {p : Pool} (ops : List PoolOp)
    (h : openCount p ≤ p.config.max_open) :
    openCount (run p ops) ≤ p.config.max_open := by
  induction ops generalizing p with
  | nil => exact h
  | cons op ops ih =>
    rw [run_cons]
    have h1 : openCount (PoolOp.step p op) ≤ (PoolOp.step p op).config.max_open := by
      rw [step_config]
      exact step_cap h
    have h2 := ih h1
    rwa [step_config] at h2

/-- C1: for every sequence of operations on a pool constructed with a
`PoolConfig` satisfying the configuration invariant `min_idle ≤ max_open`,
the pool's `open_count` (Idle + InUse + Validating connections) is at most
`max_open` at every instant: every reachable state, i.e. the state after
any operation sequence, satisfies the bound. -/
theorem spec_C1_open_count_le_max_open (cfg : PoolConfig)
    (hcfg : cfg.min_idle ≤ cfg.max_open) (ops : List PoolOp) :
    openCount (run (newPool cfg) ops) ≤ cfg.max_open := by
  have h0 : openCount (newPool cfg) ≤ (newPool cfg).config.max_open := by
    rw [newPool_openCount]
    exact hcfg
  exact run_cap ops h0

theorem spec_C1_open_count_le_max_open_witness :
    cfgEvict.min_idle ≤ cfgEvict.max_open ∧
    openCount (run (newPool cfgEvict) opsEvict) ≤ cfgEvict.max_open :=
  ⟨by decide, spec_C1_open_count_le_max_open cfgEvict (by decide) opsEvict⟩

/-! ## Lifecycle lemmas -/

theorem replenish_lifecycle (n : Nat) (p : Pool) :
    (replenish n p).lifecycle = p.lifecycle := by
  induction n generalizing p with
  | zero => rfl
  | succ n ih =>
    rw [replenish]
    split
    · rw [ih]
      rfl
    · rfl

theorem release_ok_shape {i : Nat} {p : Pool} {res : ReleaseOutcome} {p' : Pool}
    (h : release i p = Except.ok (res, p')) :
    p'.config = p.config ∧ p'.lifecycle = p.lifecycle ∧ p'.now = p.now ∧
    p'.nextId = p.nextId ∧ p'.nextWaiterId = p.nextWaiterId ∧
    (∃ st, p'.conns = setConnState i st p.now p.conns) ∧
    (p'.waiters = p.waiters ∨ p'.waiters = p.waiters.tail) := by
  rw [release] at h
  split at h
  · exact absurd h (by simp)
  · split at h
    · split at h
      · next w ws hw =>
        split at h
        · simp only [Except.ok.injEq, Prod.mk.injEq] at h
          rw [← h.2]
          refine ⟨rfl, rfl, rfl, rfl, rfl, ⟨ConnState.InUse, rfl⟩, Or.inr ?_⟩
          rw [hw]
          rfl
        · simp only [Except.ok.injEq, Prod.mk.injEq] at h
          rw [← h.2]
          exact ⟨rfl, rfl, rfl, rfl, rfl, ⟨ConnState.Idle, rfl⟩, Or.inl rfl⟩
      · simp only [Except.ok.injEq, Prod.mk.injEq] at h
        rw [← h.2]
        exact ⟨rfl, rfl, rfl, rfl, rfl, ⟨ConnState.Idle, rfl⟩, Or.inl rfl⟩
    · exact absurd h (by simp)

theorem shutdown_no_op {p : Pool}
    (h : p.lifecycle = PoolLifecycle.Draining ∨ p.lifecycle = PoolLifecycle.Closed) :
    shutdown p = p := by
  rw [shutdown, if_pos h]

theorem acquire_closed {t : Nat} {p : Pool}
    (h : p.lifecycle = PoolLifecycle.Closed) :
    acquire t p = (AcquireResult.failed AcquireError.Closed, p) := by
  rw [acquire, if_pos (Or.inr h)]

theorem step_lifecycle_closed {p : Pool} {op : PoolOp}
    (h : p.lifecycle = PoolLifecycle.Closed) :
    (PoolOp.step p op).lifecycle = PoolLifecycle.Closed := by
  cases op with
  | opAcquire t =>
    simp only [PoolOp.step]
    rw [acquire_closed h]
    exact h
  | opRelease i =>
    simp only [PoolOp.step]
    split
    · next res p' hrel =>
      rw [(release_ok_shape hrel).2.1]
      exact h
    · exact h
  | opShutdown =>
    simp only [PoolOp.step]
    rw [shutdown_no_op (Or.inr h)]
    exact h
  | opDrain =>
    simp only [PoolOp.step]
    rw [drainStep]
    split
    · rfl
    · exact h
  | opEvict =>
    simp only [PoolOp.step]
    rw [evictSweep]
    split
    · exact h
    · exact h
  | opHealthFail i =>
    simp only [PoolOp.step]
    rw [onHealthCheckFailure]
    split
    · rw [replenish_lifecycle]
      exact h
    · exact h
  | opTick d => exact h

theorem run_lifecycle_closed {p : Pool}
    (h : p.lifecycle = PoolLifecycle.Closed) (ops : List PoolOp) :
    (run p ops).lifecycle = PoolLifecycle.Closed := by
  induction ops generalizing p with
  | nil => exact h
  | cons op ops ih =>
    rw [run_cons]
    exact ih (step_lifecycle_closed h)

/-- C3: `shutdown` is idempotent — calling it while the pool is already
Draining or Closed is a no-op that changes no pool state, and
`shutdown (shutdown p) = shutdown p` for every pool — and once the pool
is Closed, every subsequent `acquire` call, after any further operation
sequence, fails with `AcquireError.Closed` and changes nothing. -/
theorem spec_C3_shutdown_idempotent_and_closed (p : Pool) :
    ((p.lifecycle = PoolLifecycle.Draining ∨ p.lifecycle = PoolLifecycle.Closed) →
      shutdown p = p) ∧
    shutdown (shutdown p) = shutdown p ∧
    (p.lifecycle = PoolLifecycle.Closed → ∀ ops t,
      acquire t (run p ops) = (AcquireResult.failed AcquireError.Closed, run p ops)) := by
  refine ⟨fun h => shutdown_no_op h, ?_,
    fun h ops t => acquire_closed (run_lifecycle_closed h ops)⟩
  by_cases h : p.lifecycle = PoolLifecycle.Draining ∨ p.lifecycle = PoolLifecycle.Closed
  · rw [shutdown_no_op h, shutdown_no_op h]
  · have h1 : (shutdown p).lifecycle = PoolLifecycle.Draining ∨
        (shutdown p).lifecycle = PoolLifecycle.Closed := by
      rw [shutdown, if_neg h]
      split
      · right
        rfl
      · left
        rfl
    exact shutdown_no_op h1

theorem spec_C3_shutdown_idempotent_and_closed_witness :
    shutdown poolClosed = poolClosed ∧
    acquire 0 (run poolClosed [PoolOp.opTick 1]) =
      (AcquireResult.failed AcquireError.Closed, run poolClosed [PoolOp.opTick 1]) :=
  ⟨(spec_C3_shutdown_idempotent_and_closed poolClosed).1 (Or.inr (by decide)),
   (spec_C3_shutdown_idempotent_and_closed poolClosed).2.2 (by decide)
     [PoolOp.opTick 1] 0⟩

/-! ## Acquire on a pool with no idle connection -/

theorem eq_Idle_of_isIdle {s : ConnState} (h : s.isIdle = true) :
    s = ConnState.Idle := by
  cases s <;> simp [ConnState.isIdle] at h ⊢

theorem grabIdle_none {now : Nat} {l : List PooledConnection}
    (h : ∀ c ∈ l, c.state ≠ ConnState.Idle) : grabIdle now l = none := by
  induction l with
  | nil => rfl
  | cons c rest ih =>
    rw [grabIdle]
    have hc : ¬((c.state.isIdle && c.healthy) = true) := by
      intro hcc
      simp only [Bool.and_eq_true] at hcc
      exact h c (List.mem_cons_self c rest) (eq_Idle_of_isIdle hcc.1)
    rw [if_neg hc, ih (fun c' hm => h c' (List.mem_cons_of_mem _ hm))]

/-- C5: `acquire` called with `timeout = 0` on an exhausted Ready pool
(`open_count = max_open`, no idle connection exists) returns
`AcquireError.Timeout` immediately, with the pool unchanged — in
particular the caller is not enqueued, so it never blocks or suspends. -/
theorem spec_C5_zero_timeout_exhausted (p : Pool)
    (hready : p.lifecycle = PoolLifecycle.Ready)
    (hnoidle : ∀ c ∈ p.conns, c.state ≠ ConnState.Idle)
    (hfull : openCount p = p.config.max_open) :
    acquire 0 p = (AcquireResult.failed AcquireError.Timeout, p) := by
  rw [acquire, if_neg (by rw [hready]; simp)]
  simp only [grabIdle_none hnoidle]
  rw [hfull, if_neg (lt_irrefl _)]
  simp

theorem spec_C5_zero_timeout_exhausted_witness :
    poolExhausted.lifecycle = PoolLifecycle.Ready ∧
    (∀ c ∈ poolExhausted.conns, c.state ≠ ConnState.Idle) ∧
    openCount poolExhausted = poolExhausted.config.max_open ∧
    acquire 0 poolExhausted = (AcquireResult.failed AcquireError.Timeout, poolExhausted) :=
  ⟨by decide, by decide, by decide,
   spec_C5_zero_timeout_exhausted poolExhausted (by decide) (by decide) (by decide)⟩

/-- C7: releasing a connection id unknown to the pool fails with the
contract-violation error `unknownId`, and releasing an id whose connection
is already Idle fails with the contract-violation error `notInUse`; in
both cases the error is reported rather than ignored and the pool state
(connections, idle set, waiter queue, counters) is left unchanged. -/
theorem spec_C7_release_contract_violation (p : Pool) (cid : Nat) :
    (p.conns.find? (fun x => x.id == cid) = none →
      release cid p = Except.error ReleaseError.unknownId ∧
      PoolOp.step p (PoolOp.opRelease cid) = p) ∧
    (∀ c, p.conns.find? (fun x => x.id == cid) = some c →
      c.state = ConnState.Idle →
      release cid p = Except.error ReleaseError.notInUse ∧
      PoolOp.step p (PoolOp.opRelease cid) = p) := by
  constructor
  · intro hf
    have h1 : release cid p = Except.error ReleaseError.unknownId := by
      simp only [release, hf]
    refine ⟨h1, ?_⟩
    simp only [PoolOp.step, h1]
  · intro c hf hidle
    have hni : ¬(c.state = ConnState.InUse) := by
      rw [hidle]
      simp
    have h1 : release cid p = Except.error ReleaseError.notInUse := by
      simp only [release, hf]
      rw [if_neg hni]
    refine ⟨h1, ?_⟩
    simp only [PoolOp.step, h1]

/-! ## Idle eviction -/

/-- C6: the idle-eviction sweep never evicts while acquire requests are
queued, never reduces `open_count` below `min_idle`, and on the spec's
example (`min_idle = 2`, `max_open = 5`, five connections opened and all
released, then waiting past `idle_timeout`) the sweep leaves exactly 2
connections open. -/
theorem spec_C6_idle_eviction (p : Pool) :
    (p.waiters ≠ [] → evictSweep p = p) ∧
    (p.config.min_idle ≤ openCount p →
      p.config.min_idle ≤ openCount (evictSweep p)) ∧
    openCount (run (newPool cfgEvict) opsEvict) = 2 := by
  refine ⟨?_, ?_, by decide⟩
  · intro h
    rw [evictSweep, if_neg (by simpa [List.isEmpty_iff] using h)]
  · intro h
    rw [evictSweep]
    split
    · show p.config.min_idle ≤ openCountL (evictLoop p.config p.now (openCount p) p.conns)
      have hm := evictLoop_min p.config p.now p.conns (openCount p) 0 (by simp [openCount])
      omega
    · exact h

theorem spec_C6_idle_eviction_witness :
    poolWithWaiter.waiters ≠ [] ∧
    evictSweep poolWithWaiter = poolWithWaiter ∧
    cfgEvict.min_idle ≤ openCount (evictSweep (newPool cfgEvict)) :=
  ⟨by decide,
   (spec_C6_idle_eviction poolWithWaiter).1 (by decide),
   (spec_C6_idle_eviction (newPool cfgEvict)).2.1 (by decide)⟩

/-! ## FIFO handoff on release -/

theorem setConnState_find? {connId : Nat} {st : ConnState} {lu : Nat}
    {l : List PooledConnection} {c : PooledConnection}
    (hf : l.find? (fun x => x.id == connId) = some c) :
    (setConnState connId st lu l).find? (fun x => x.id == connId) =
      some { c with state := st, last_used_at := lu } := by
  induction l with
  | nil => simp at hf
  | cons x rest ih =>
    rw [setConnState]
    by_cases hx : x.id = connId
    · rw [if_pos hx]
      rw [List.find?_cons_of_pos _ (by simp [hx])] at hf
      simp only [Option.some.injEq] at hf
      subst hf
      rw [List.find?_cons_of_pos _ (by simp [hx])]
    · rw [if_neg hx]
      rw [List.find?_cons_of_neg _ (by simp [hx])] at hf
      rw [List.find?_cons_of_neg _ (by simp [hx])]
      exact ih hf

theorem replenish_waiters (n : Nat) (p : Pool) :
    (replenish n p).waiters = p.waiters := by
  induction n generalizing p with
  | zero => rfl
  | succ n ih =>
    rw [replenish]
    split
    · rw [ih]
      rfl
    · rfl

theorem replenish_nextWaiterId (n : Nat) (p : Pool) :
    (replenish n p).nextWaiterId = p.nextWaiterId := by
  induction n generalizing p with
  | zero => rfl
  | succ n ih =>
    rw [replenish]
    split
    · rw [ih]
      rfl
    · rfl

theorem newPool_waiterInv (cfg : PoolConfig) : WaiterInv (newPool cfg) := by
  constructor
  · exact List.Pairwise.nil
  · intro w hw
    simp [newPool] at hw

theorem step_waiterInv {p : Pool} {op : PoolOp} (h : WaiterInv p) :
    WaiterInv (PoolOp.step p op) := by
  obtain ⟨hpw, hlt⟩ := h
  cases op with
  | opAcquire t =>
    simp only [PoolOp.step]
    rw [acquire]
    split
    · exact ⟨hpw, hlt⟩
    · split
      · exact ⟨hpw, hlt⟩
      · split
        · exact ⟨hpw, hlt⟩
        · split
          · exact ⟨hpw, hlt⟩
          · split
            · exact ⟨hpw, hlt⟩
            · constructor
              · show (p.waiters ++
                  [({ id := p.nextWaiterId, enqueued_at := p.now,
                      timeout_deadline := p.now + t } : Waiter)]).Pairwise _
                rw [List.pairwise_append]
                refine ⟨hpw, List.pairwise_singleton _ _, ?_⟩
                intro a ha b hb
                simp only [List.mem_singleton] at hb
                subst hb
                exact hlt a ha
              · intro w hw
                simp only [List.mem_append, List.mem_singleton] at hw
                show w.id < p.nextWaiterId + 1
                rcases hw with hw | hw
                · exact Nat.lt_succ_of_lt (hlt w hw)
                · subst hw
                  exact Nat.lt_succ_self _
  | opRelease i =>
    simp only [PoolOp.step]
    split
    · next res p' hrel =>
      obtain ⟨-, -, -, -, hnw, -, hws⟩ := release_ok_shape hrel
      constructor
      · rcases hws with hws | hws
        · rw [hws]
          exact hpw
        · rw [hws]
          exact hpw.tail
      · intro w hw
        rw [hnw]
        rcases hws with hws | hws
        · rw [hws] at hw
          exact hlt w hw
        · rw [hws] at hw
          exact hlt w (List.mem_of_mem_tail hw)
    · exact ⟨hpw, hlt⟩
  | opShutdown =>
    simp only [PoolOp.step]
    rw [shutdown]
    split
    · exact ⟨hpw, hlt⟩
    · split
      · exact ⟨List.Pairwise.nil, by intro w hw; simp at hw⟩
      · exact ⟨List.Pairwise.nil, by intro w hw; simp at hw⟩
  | opDrain =>
    simp only [PoolOp.step]
    rw [drainStep]
    split
    · exact ⟨hpw, hlt⟩
    · exact ⟨hpw, hlt⟩
  | opEvict =>
    simp only [PoolOp.step]
    rw [evictSweep]
    split
    · exact ⟨hpw, hlt⟩
    · exact ⟨hpw, hlt⟩
  | opHealthFail i =>
    simp only [PoolOp.step]
    rw [onHealthCheckFailure]
    split
    · constructor
      · rw [replenish_waiters]
        exact hpw
      · intro w hw
        rw [replenish_waiters] at hw
        rw [replenish_nextWaiterId]
        exact hlt w hw
    · exact ⟨hpw, hlt⟩
  | opTick d => exact ⟨hpw, hlt⟩

theorem run_waiterInv {p : Pool} (ops : List PoolOp) (h : WaiterInv p) :
    WaiterInv (run p ops) := by
  induction ops generalizing p with
  | nil => exact h
  | cons op ops ih =>
    rw [run_cons]
    exact ih (step_waiterInv h)

/-- C2: when a healthy InUse connection is released while the waiter queue
is nonempty, `release` hands the connection to the head waiter — the
longest-waiting one, since on every reachable pool the queue is in strict
enqueue (FIFO) order — removes exactly that waiter from the queue, and the
connection stays InUse instead of being added to the idle set. -/
theorem spec_C2_release_fifo (p : Pool) (connId : Nat) (c : PooledConnection)
    (w : Waiter) (ws : List Waiter)
    (hf : p.conns.find? (fun x => x.id == connId) = some c)
    (hInUse : c.state = ConnState.InUse)
    (hHealthy : c.healthy = true)
    (hw : p.waiters = w :: ws) :
    release connId p = Except.ok (ReleaseOutcome.handedTo w.id,
      { p with conns := setConnState connId ConnState.InUse p.now p.conns,
               waiters := ws }) ∧
    (setConnState connId ConnState.InUse p.now p.conns).find?
        (fun x => x.id == connId) =
      some { c with state := ConnState.InUse, last_used_at := p.now } ∧
    (∀ cfg ops,
      ((run (newPool cfg) ops).waiters).Pairwise (fun a b => a.id < b.id)) := by
  refine ⟨?_, setConnState_find? hf,
    fun cfg ops => (run_waiterInv ops (newPool_waiterInv cfg)).1⟩
  simp only [release, hf]
  rw [if_pos hInUse, hw]
  simp [hHealthy]

theorem spec_C2_release_fifo_witness :
    release 0 poolBusy = Except.ok (ReleaseOutcome.handedTo 0,
      { poolBusy with
          conns := setConnState 0 ConnState.InUse poolBusy.now poolBusy.conns,
          waiters := [{ id := 1, enqueued_at := 0, timeout_deadline := 9 }] }) :=
  (spec_C2_release_fifo poolBusy 0
    { id := 0, created_at := 0, last_used_at := 0, last_health_check := 0,
      healthy := true, state := ConnState.InUse }
    { id := 0, enqueued_at := 0, timeout_deadline := 9 }
    [{ id := 1, enqueued_at := 0, timeout_deadline := 9 }]
    (by decide) (by decide) (by decide) (by decide)).1

/-! ## A removed connection id never reappears -/

theorem setConnState_mem_ids {connId : Nat} {st : ConnState} {lu : Nat}
    {l : List PooledConnection} {c' : PooledConnection}
    (h : c' ∈ setConnState connId st lu l) : ∃ c ∈ l, c'.id = c.id := by
  induction l with
  | nil => simp [setConnState] at h
  | cons x rest ih =>
    rw [setConnState] at h
    split at h
    · rcases List.mem_cons.mp h with h1 | h1
      · subst h1
        exact ⟨x, List.mem_cons_self x rest, rfl⟩
      · exact ⟨c', List.mem_cons_of_mem _ h1, rfl⟩
    · rcases List.mem_cons.mp h with h1 | h1
      · subst h1
        exact ⟨c', List.mem_cons_self _ _, rfl⟩
      · obtain ⟨c, hc, he⟩ := ih h1
        exact ⟨c, List.mem_cons_of_mem _ hc, he⟩

theorem grabIdle_shape {now : Nat} {l l' : List PooledConnection} {i : Nat}
    (h : grabIdle now l = some (i, l')) :
    (∃ c ∈ l, i = c.id) ∧ (∀ c' ∈ l', ∃ c ∈ l, c'.id = c.id) := by
  induction l generalizing l' i with
  | nil => simp [grabIdle] at h
  | cons c rest ih =>
    rw [grabIdle] at h
    split at h
    · simp only [Option.some.injEq, Prod.mk.injEq] at h
      obtain ⟨h1, h2⟩ := h
      subst h2
      refine ⟨⟨c, List.mem_cons_self _ _, h1.symm⟩, ?_⟩
      intro c' hc'
      rcases List.mem_cons.mp hc' with h3 | h3
      · subst h3
        exact ⟨c, List.mem_cons_self _ _, rfl⟩
      · exact ⟨c', List.mem_cons_of_mem _ h3, rfl⟩
    · cases hr : grabIdle now rest with
      | none => rw [hr] at h; simp at h
      | some pr =>
        obtain ⟨j, rest'⟩ := pr
        rw [hr] at h
        simp only [Option.some.injEq, Prod.mk.injEq] at h
        obtain ⟨h1, h2⟩ := h
        subst h1
        subst h2
        obtain ⟨⟨c1, hc1, he1⟩, hsub⟩ := ih hr
        refine ⟨⟨c1, List.mem_cons_of_mem _ hc1, he1⟩, ?_⟩
        intro c' hc'
        rcases List.mem_cons.mp hc' with h3 | h3
        · exact ⟨c, List.mem_cons_self _ _, by rw [h3]⟩
        · obtain ⟨c2, hc2, he2⟩ := hsub c' h3
          exact ⟨c2, List.mem_cons_of_mem _ hc2, he2⟩

theorem evictLoop_sublist (cfg : PoolConfig) (now : Nat)
    (cnt : Nat) (l : List PooledConnection) :
    (evictLoop cfg now cnt l).Sublist l := by
  induction l generalizing cnt with
  | nil => simp [evictLoop]
  | cons c rest ih =>
    rw [evictLoop]
    split
    · exact List.Sublist.cons c (ih _)
    · exact List.Sublist.cons₂ c (ih _)

theorem openFresh_notIn {i : Nat} {p : Pool} (h : NotIn i p) :
    NotIn i (openFresh p) := by
  obtain ⟨hlt, hmem⟩ := h
  constructor
  · show i < p.nextId + 1
    omega
  · intro c hc
    show c.id ≠ i
    rcases List.mem_append.mp hc with h1 | h1
    · exact hmem c h1
    · simp only [List.mem_singleton] at h1
      subst h1
      show p.nextId ≠ i
      omega

theorem replenish_notIn {i : Nat} {n : Nat} {p : Pool} (h : NotIn i p) :
    NotIn i (replenish n p) := by
  induction n generalizing p with
  | zero => exact h
  | succ n ih =>
    rw [replenish]
    split
    · exact ih (openFresh_notIn h)
    · exact h

theorem step_notIn {i : Nat} {p : Pool} {op : PoolOp} (h : NotIn i p) :
    NotIn i (PoolOp.step p op) := by
  obtain ⟨hlt, hmem⟩ := h
  cases op with
  | opAcquire t =>
    simp only [PoolOp.step]
    rw [acquire]
    split
    · exact ⟨hlt, hmem⟩
    · split
      · next j conns' hg =>
        refine ⟨hlt, ?_⟩
        intro c' hc'
        obtain ⟨c, hc, he⟩ := (grabIdle_shape hg).2 c' hc'
        rw [he]
        exact hmem c hc
      · split
        · refine ⟨Nat.lt_succ_of_lt hlt, ?_⟩
          intro c hc
          rcases List.mem_append.mp hc with h1 | h1
          · exact hmem c h1
          · simp only [List.mem_singleton] at h1
            subst h1
            show p.nextId ≠ i
            omega
        · split
          · exact ⟨hlt, hmem⟩
          · split
            · exact ⟨hlt, hmem⟩
            · exact ⟨hlt, hmem⟩
  | opRelease j =>
    simp only [PoolOp.step]
    split
    · next res p' hrel =>
      obtain ⟨-, -, -, hni, -, ⟨st, hcs⟩, -⟩ := release_ok_shape hrel
      refine ⟨by rw [hni]; exact hlt, ?_⟩
      intro c' hc'
      rw [hcs] at hc'
      obtain ⟨c, hc, he⟩ := setConnState_mem_ids hc'
      rw [he]
      exact hmem c hc
    · exact ⟨hlt, hmem⟩
  | opShutdown =>
    simp only [PoolOp.step]
    rw [shutdown]
    split
    · exact ⟨hlt, hmem⟩
    · split
      · exact ⟨hlt, by intro c hc; simp at hc⟩
      · exact ⟨hlt, hmem⟩
  | opDrain =>
    simp only [PoolOp.step]
    rw [drainStep]
    split
    · exact ⟨hlt, by intro c hc; simp at hc⟩
    · exact ⟨hlt, hmem⟩
  | opEvict =>
    simp only [PoolOp.step]
    rw [evictSweep]
    split
    · refine ⟨hlt, ?_⟩
      intro c hc
      exact hmem c ((evictLoop_sublist _ _ _ _).subset hc)
    · exact ⟨hlt, hmem⟩
  | opHealthFail j =>
    simp only [PoolOp.step]
    rw [onHealthCheckFailure]
    split
    · refine replenish_notIn ⟨hlt, ?_⟩
      intro c hc
      exact hmem c (List.mem_of_mem_filter hc)
    · exact ⟨hlt, hmem⟩
  | opTick d => exact ⟨hlt, hmem⟩

theorem run_notIn {i : Nat} {p : Pool} (h : NotIn i p) (ops : List PoolOp) :
    NotIn i (run p ops) := by
  induction ops generalizing p with
  | nil => exact h
  | cons op ops ih =>
    rw [run_cons]
    exact ih (step_notIn h)

theorem acquire_granted {t : Nat} {p : Pool} {j : Nat}
    (h : (acquire t p).1 = AcquireResult.granted j) :
    (∃ c ∈ p.conns, j = c.id) ∨ j = p.nextId := by
  rw [acquire] at h
  split at h
  · simp at h
  · split at h
    · next i conns' hg =>
      simp only [AcquireResult.granted.injEq] at h
      subst h
      exact Or.inl (grabIdle_shape hg).1
    · split at h
      · simp only [AcquireResult.granted.injEq] at h
        exact Or.inr h.symm
      · split at h
        · simp at h
        · split at h
          · simp at h
          · simp at h

/-- C4: after a connection fails a health check it is closed and removed
from the pool (no remaining connection carries its id), the pool
replenishes so that `open_count` does not stay below `min_idle`, and no
subsequent `acquire` call — after any further operation sequence — ever
returns that connection's id again. -/
theorem spec_C4_health_fail_never_returned (p : Pool) (c0 : PooledConnection)
    (hwf : ∀ c ∈ p.conns, c.id < p.nextId)
    (hmem : c0 ∈ p.conns)
    (hmm : p.config.min_idle ≤ p.config.max_open) :
    (∀ c ∈ (onHealthCheckFailure c0.id p).conns, c.id ≠ c0.id) ∧
    p.config.min_idle ≤ openCount (onHealthCheckFailure c0.id p) ∧
    (∀ ops t j,
      (acquire t (run (onHealthCheckFailure c0.id p) ops)).1 =
        AcquireResult.granted j → j ≠ c0.id) := by
  have hsome : (p.conns.find? (fun c => c.id == c0.id)).isSome := by
    rw [List.find?_isSome]
    exact ⟨c0, hmem, by simp⟩
  have hdef : onHealthCheckFailure c0.id p =
      replenish p.config.min_idle
        { p with conns := p.conns.filter (fun c => !(c.id == c0.id)) } := by
    rw [onHealthCheckFailure, if_pos hsome]
  have hNotIn : NotIn c0.id
      ({ p with conns := p.conns.filter (fun c => !(c.id == c0.id)) } : Pool) := by
    refine ⟨hwf c0 hmem, ?_⟩
    intro c hc
    have := List.of_mem_filter hc
    simpa using this
  have hNotIn' : NotIn c0.id (onHealthCheckFailure c0.id p) := by
    rw [hdef]
    exact replenish_notIn hNotIn
  refine ⟨hNotIn'.2, ?_, ?_⟩
  · rw [hdef]
    have hq : ({ p with conns := p.conns.filter (fun c => !(c.id == c0.id)) } : Pool).config.min_idle ≤
        ({ p with conns := p.conns.filter (fun c => !(c.id == c0.id)) } : Pool).config.max_open := hmm
    have hs : ({ p with conns := p.conns.filter (fun c => !(c.id == c0.id)) } : Pool).config.min_idle ≤
        openCount ({ p with conns := p.conns.filter (fun c => !(c.id == c0.id)) } : Pool) +
          p.config.min_idle := by
      show p.config.min_idle ≤
        openCount ({ p with conns := p.conns.filter (fun c => !(c.id == c0.id)) } : Pool) +
          p.config.min_idle
      omega
    exact replenish_min hq hs
  · intro ops t j hg
    have hrun := run_notIn hNotIn' ops
    rcases acquire_granted hg with ⟨c, hc, he⟩ | he
    · rw [he]
      exact hrun.2 c hc
    · rw [he]
      obtain ⟨hlt, -⟩ := hrun
      omega

theorem spec_C4_health_fail_never_returned_witness :
    freshConn 0 0 ConnState.Idle ∈ (newPool cfgEvict).conns ∧
    cfgEvict.min_idle ≤ openCount (onHealthCheckFailure 0 (newPool cfgEvict)) :=
  ⟨by decide,
   (spec_C4_health_fail_never_returned (newPool cfgEvict)
     (freshConn 0 0 ConnState.Idle) (by decide) (by decide) (by decide)).2.1⟩

/-! ## The zero-capacity pool rejects deterministically -/

theorem openCountL_zero_no_idle {l : List PooledConnection}
    (h : openCountL l = 0) : ∀ c ∈ l, c.state ≠ ConnState.Idle := by
  rw [openCountL, List.countP_eq_zero] at h
  intro c hm heq
  have h1 : c.state.isOpen = true := by rw [heq]; rfl
  exact absurd h1 (by simpa using h c hm)

/-- C8: a pool constructed with `min_idle = 0` and `max_open = 0` rejects
every `acquire` call, in every reachable state and for every timeout: the
call returns immediately with `AcquireError.Timeout` or
`AcquireError.Closed` and leaves the pool unchanged (no waiter is
enqueued, no blocking); as `acquire` is a function of the pool state, two
calls in the same state return the same result. -/
theorem spec_C8_zero_pool_rejects (cfg : PoolConfig)
    (h0 : cfg.min_idle = 0) (hM : cfg.max_open = 0)
    (ops : List PoolOp) (t : Nat) :
    ∃ e, acquire t (run (newPool cfg) ops) =
        (AcquireResult.failed e, run (newPool cfg) ops) ∧
      (e = AcquireError.Timeout ∨ e = AcquireError.Closed) := by
  have hcap : openCount (run (newPool cfg) ops) ≤ cfg.max_open := by
    refine run_cap ops ?_
    show openCount (newPool cfg) ≤ cfg.max_open
    rw [newPool_openCount, h0]
    omega
  have hzero : openCount (run (newPool cfg) ops) = 0 := by omega
  by_cases hlc : (run (newPool cfg) ops).lifecycle = PoolLifecycle.Draining ∨
      (run (newPool cfg) ops).lifecycle = PoolLifecycle.Closed
  · exact ⟨AcquireError.Closed, by rw [acquire, if_pos hlc], Or.inr rfl⟩
  · refine ⟨AcquireError.Timeout, ?_, Or.inl rfl⟩
    rw [acquire, if_neg hlc]
    simp only [grabIdle_none (openCountL_zero_no_idle hzero)]
    have hqc : (run (newPool cfg) ops).config.max_open = 0 := by
      rw [run_config]
      exact hM
    rw [show openCount (run (newPool cfg) ops) = 0 from hzero, hqc]
    rw [if_neg (lt_irrefl 0)]
    by_cases ht : t = 0
    · rw [if_pos ht]
    · rw [if_neg ht, if_pos rfl]

theorem spec_C8_zero_pool_rejects_witness :
    cfgZero.min_idle = 0 ∧ cfgZero.max_open = 0 ∧
    ∃ e, acquire 5 (run (newPool cfgZero) [PoolOp.opAcquire 2, PoolOp.opTick 3]) =
        (AcquireResult.failed e, run (newPool cfgZero) [PoolOp.opAcquire 2, PoolOp.opTick 3]) ∧
      (e = AcquireError.Timeout ∨ e = AcquireError.Closed) :=
  ⟨rfl, rfl,
   spec_C8_zero_pool_rejects cfgZero rfl rfl [PoolOp.opAcquire 2, PoolOp.opTick 3] 5⟩

theorem spec_C7_release_contract_violation_witness :
    (release 99 (newPool cfgEvict) = Except.error ReleaseError.unknownId ∧
     PoolOp.step (newPool cfgEvict) (PoolOp.opRelease 99) = newPool cfgEvict) ∧
    (release 0 (newPool cfgEvict) = Except.error ReleaseError.notInUse ∧
     PoolOp.step (newPool cfgEvict) (PoolOp.opRelease 0) = newPool cfgEvict) :=
  ⟨(spec_C7_release_contract_violation (newPool cfgEvict) 99).1 (by decide),
   (spec_C7_release_contract_violation (newPool cfgEvict) 0).2
     (freshConn 0 0 ConnState.Idle) (by decide) (by decide)⟩

/-! ## The `users` table invariants -/

theorem insertUser_ok {t : UsersTable} {req : InsertRequest} {freshId now : Nat}
    {t' : UsersTable} (h : insertUser t req freshId now = Except.ok t') :
    ∃ e u, req.email = some e ∧ req.username = some u ∧
      req.password_hash.isSome = true ∧
      emailFormat e = true ∧ usernameFormat u = true ∧
      (∀ x ∈ t.rows, x.email ≠ some e ∧ x.username ≠ some u ∧
        x.id ≠ (rowOfRequest req freshId now).id) ∧
      t'.rows = t.rows ++ [rowOfRequest req freshId now] := by
  simp only [insertUser] at h
  split at h
  · next e u ph he hu hph =>
    split at h
    · simp at h
    · split at h
      · simp at h
      · split at h
        · simp at h
        · next hfmt =>
          split at h
          · simp at h
          · next hany =>
            simp only [Except.ok.injEq] at h
            simp only [rowOfRequest] at he hu hph
            have hfmt2 : emailFormat e = true ∧ usernameFormat u = true := by
              have h3 := hfmt
              simp only [Bool.not_eq_true, Bool.not_eq_false', Bool.and_eq_true] at h3
              exact h3
            refine ⟨e, u, he, hu, by rw [hph]; rfl, hfmt2.1, hfmt2.2, ?_⟩
            · constructor
              · intro x hx
                have hany2 : t.rows.any (fun x =>
                    x.email == some e || x.username == some u ||
                    x.id == (rowOfRequest req freshId now).id) = false := by
                  simpa using hany
                have hx2 := List.any_eq_false.mp hany2 x hx
                simp only [Bool.or_eq_true, beq_iff_eq, not_or] at hx2
                exact ⟨hx2.1.1, hx2.1.2, hx2.2⟩
              · rw [← h]
  all_goals simp at h

theorem emptyUsers_tableInv : TableInv emptyUsers := by
  constructor
  · intro r hr
    simp [emptyUsers] at hr
  · exact List.Pairwise.nil

theorem insertUser_tableInv {t : UsersTable} {req : InsertRequest}
    {freshId now : Nat} {t' : UsersTable} (hInv : TableInv t)
    (h : insertUser t req freshId now = Except.ok t') : TableInv t' := by
  obtain ⟨e, u, he, hu, hph, hef, huf, hdist, hrows⟩ := insertUser_ok h
  obtain ⟨hfmt, hpw⟩ := hInv
  constructor
  · intro r hr
    rw [hrows] at hr
    rcases List.mem_append.mp hr with h1 | h1
    · exact hfmt r h1
    · simp only [List.mem_singleton] at h1
      subst h1
      refine ⟨⟨⟨e, ?_, hef⟩, ⟨u, ?_, huf⟩⟩, ?_⟩
      · simp [rowOfRequest, he]
      · simp [rowOfRequest, hu]
      · simp only [rowOfRequest]
        exact hph
  · rw [hrows, List.pairwise_append]
    refine ⟨hpw, List.pairwise_singleton _ _, ?_⟩
    intro a ha b hb
    simp only [List.mem_singleton] at hb
    subst hb
    obtain ⟨h1, h2, h3⟩ := hdist a ha
    refine ⟨?_, ?_, h3⟩
    · simpa [rowOfRequest, he] using h1
    · simpa [rowOfRequest, hu] using h2

theorem updateUser_tableInv {t : UsersTable} {targetId : Nat}
    {ureq : UpdateRequest} {t' : UsersTable} (hInv : TableInv t)
    (h : updateUser t targetId ureq = Except.ok t') : TableInv t' := by
  obtain ⟨hfmt, hpw⟩ := hInv
  rw [updateUser] at h
  split at h
  · simp only [Except.ok.injEq] at h
    subst h
    exact ⟨hfmt, hpw⟩
  · next r hr =>
    split at h
    · next e u hne hnu =>
      split at h
      · simp at h
      · split at h
        · simp at h
        · split at h
          · simp at h
          · next hfm =>
            split at h
            · simp at h
            · next hany =>
              simp only [Except.ok.injEq] at h
              have hfm2 : emailFormat e = true ∧ usernameFormat u = true := by
                have h3 := hfm
                simp only [Bool.not_eq_true, Bool.not_eq_false', Bool.and_eq_true] at h3
                exact h3
              have hany2 : ∀ x ∈ t.rows, x.id ≠ targetId →
                  x.email ≠ some e ∧ x.username ≠ some u := by
                intro x hx hne2
                have hany3 : (t.rows.any fun x =>
                    !(x.id == targetId) && (x.email == some e ||
                      x.username == some u)) = false := by
                  simpa using hany
                have hx2 := List.any_eq_false.mp hany3 x hx
                simp only [Bool.and_eq_true, Bool.not_eq_true', beq_eq_false_iff_ne,
                  Bool.or_eq_true, beq_iff_eq, not_and, not_or] at hx2
                exact hx2 hne2
              constructor
              · intro x' hx'
                rw [← h] at hx'
                simp only [List.mem_map] at hx'
                obtain ⟨x, hx, hfx⟩ := hx'
                subst hfx
                split
                · refine ⟨⟨⟨e, rfl, hfm2.1⟩, ⟨u, rfl, hfm2.2⟩⟩, ?_⟩
                  exact (hfmt x hx).2
                · exact hfmt x hx
              · rw [← h]
                rw [List.pairwise_map]
                refine List.Pairwise.imp_of_mem ?_ hpw
                intro a b ha hb hab
                obtain ⟨hae, hau, hai⟩ := hab
                by_cases ha2 : a.id = targetId
                · by_cases hb2 : b.id = targetId
                  · exact absurd (ha2.trans hb2.symm) hai
                  · have hbfacts := hany2 b hb hb2
                    rw [if_pos (by simpa using ha2), if_neg (by simpa using hb2)]
                    refine ⟨?_, ?_, by simpa using hai⟩
                    · show some e ≠ b.email
                      exact fun hc => hbfacts.1 hc.symm
                    · show some u ≠ b.username
                      exact fun hc => hbfacts.2 hc.symm
                · by_cases hb2 : b.id = targetId
                  · have hafacts := hany2 a ha ha2
                    rw [if_neg (by simpa using ha2), if_pos (by simpa using hb2)]
                    refine ⟨?_, ?_, by simpa using hai⟩
                    · show a.email ≠ some e
                      exact hafacts.1
                    · show a.username ≠ some u
                      exact hafacts.2
                  · rw [if_neg (by simpa using ha2), if_neg (by simpa using hb2)]
                    exact ⟨hae, hau, hai⟩
    · simp at h

theorem stepTable_tableInv {t : UsersTable} {op : DbOp} (h : TableInv t) :
    TableInv (DbOp.stepTable t op) := by
  cases op with
  | opInsert req freshId now =>
    simp only [DbOp.stepTable]
    split
    · next t' hok => exact insertUser_tableInv h hok
    · exact h
  | opUpdate targetId ureq =>
    simp only [DbOp.stepTable]
    split
    · next t' hok => exact updateUser_tableInv h hok
    · exact h

theorem runTable_tableInv (ops : List DbOp) : TableInv (runTable ops) := by
  rw [runTable]
  have hgen : ∀ (l : List DbOp) (t : UsersTable), TableInv t →
      TableInv (l.foldl DbOp.stepTable t) := by
    intro l
    induction l with
    | nil => intro t ht; exact ht
    | cons op l ih =>
      intro t ht
      exact ih _ (stepTable_tableInv ht)
  exact hgen ops emptyUsers emptyUsers_tableInv

/-- C9: every reachable state of the `users` table satisfies the schema
constraints — no two rows share an email, no two rows share a username,
every email matches the email-format CHECK regex and every username the
username-format CHECK regex — a statement whose new email fails the CHECK
constraint is rejected with an error, and a rejected INSERT or UPDATE
leaves the table unchanged. -/
theorem spec_C9_users_table_constraints :
    (∀ ops, TableOk (runTable ops)) ∧
    (∀ t req freshId now e, req.email = some e → emailFormat e = false →
      ∃ err, insertUser t req freshId now = Except.error err) ∧
    (∀ t req freshId now err, insertUser t req freshId now = Except.error err →
      DbOp.stepTable t (DbOp.opInsert req freshId now) = t) ∧
    (∀ t targetId ureq err, updateUser t targetId ureq = Except.error err →
      DbOp.stepTable t (DbOp.opUpdate targetId ureq) = t) := by
  refine ⟨fun ops => ?_, ?_, ?_, ?_⟩
  · obtain ⟨h1, h2⟩ := runTable_tableInv ops
    exact ⟨fun r hr => (h1 r hr).1,
           h2.imp (fun hab => ⟨hab.1, hab.2.1⟩)⟩
  · intro t req freshId now e he hbad
    simp only [insertUser]
    split
    · next e' u' ph' he' hu' hph' =>
      have hee : e' = e := by
        simp only [rowOfRequest] at he'
        rw [he] at he'
        exact (Option.some.injEq _ _ ▸ he').symm
      subst hee
      split
      · exact ⟨DbError.valueTooLong, rfl⟩
      · split
        · exact ⟨DbError.valueTooLong, rfl⟩
        · split
          · exact ⟨DbError.checkViolation, rfl⟩
          · next hfm =>
            exfalso
            have := hfm
            simp only [Bool.not_eq_true, Bool.not_eq_false] at this
            rw [hbad] at this
            simp at this
    · exact ⟨DbError.notNullViolation, rfl⟩
  · intro t req freshId now err h
    simp only [DbOp.stepTable, h]
  · intro t targetId ureq err h
    simp only [DbOp.stepTable, h]

theorem spec_C9_users_table_constraints_witness :
    TableOk (runTable [DbOp.opInsert reqAlice 7 3]) ∧
    (∃ err, insertUser emptyUsers reqBadEmail 0 0 = Except.error err) ∧
    DbOp.stepTable emptyUsers (DbOp.opInsert reqBadEmail 0 0) = emptyUsers :=
  ⟨(spec_C9_users_table_constraints).1 [DbOp.opInsert reqAlice 7 3],
   (spec_C9_users_table_constraints).2.1 emptyUsers reqBadEmail 0 0
     "not-an-email" rfl (by decide),
   (spec_C9_users_table_constraints).2.2.1 emptyUsers reqBadEmail 0 0
     DbError.checkViolation (by rfl)⟩

/-- C10: an INSERT that does not supply `id`, `email_verified`,
`is_active`, `created_at` or `updated_at` stores, on success, exactly the
row built from the DDL defaults — `id` is the freshly generated UUID,
`email_verified` is false, `is_active` is true, and `created_at` and
`updated_at` equal the insertion time — and in every reachable state of
the table no stored row has a NULL `email`, `username` or
`password_hash`. -/
theorem spec_C10_users_defaults_not_null :
    (∀ (t : UsersTable) (req : InsertRequest) (freshId now : Nat)
        (t' : UsersTable),
      req.id = none → req.email_verified = none → req.is_active = none →
      req.created_at = none → req.updated_at = none →
      insertUser t req freshId now = Except.ok t' →
      t'.rows = t.rows ++ [rowOfRequest req freshId now] ∧
      (rowOfRequest req freshId now).id = freshId ∧
      (rowOfRequest req freshId now).email_verified = some false ∧
      (rowOfRequest req freshId now).is_active = some true ∧
      (rowOfRequest req freshId now).created_at = some now ∧
      (rowOfRequest req freshId now).updated_at = some now) ∧
    (∀ ops, ∀ r ∈ (runTable ops).rows,
      r.email.isSome = true ∧ r.username.isSome = true ∧
      r.password_hash.isSome = true) := by
  constructor
  · intro t req freshId now t' hid hev hia hca hua h
    obtain ⟨-, -, -, -, -, -, -, -, hrows⟩ := insertUser_ok h
    refine ⟨hrows, ?_, ?_, ?_, ?_, ?_⟩
    · simp [rowOfRequest, hid]
    · simp [rowOfRequest, hev]
    · simp [rowOfRequest, hia]
    · simp [rowOfRequest, hca]
    · simp [rowOfRequest, hua]
  · intro ops r hr
    obtain ⟨h1, -⟩ := runTable_tableInv ops
    obtain ⟨⟨⟨e, he, -⟩, ⟨u, hu, -⟩⟩, hph⟩ := h1 r hr
    exact ⟨by rw [he]; rfl, by rw [hu]; rfl, hph⟩

theorem spec_C10_users_defaults_not_null_witness :
    ({ rows := [rowOfRequest reqAlice 7 3] } : UsersTable).rows =
      emptyUsers.rows ++ [rowOfRequest reqAlice 7 3] ∧
    (rowOfRequest reqAlice 7 3).id = 7 ∧
    (rowOfRequest reqAlice 7 3).email_verified = some false ∧
    (rowOfRequest reqAlice 7 3).is_active = some true ∧
    (rowOfRequest reqAlice 7 3).created_at = some 3 ∧
    (rowOfRequest reqAlice 7 3).updated_at = some 3 :=
  (spec_C10_users_defaults_not_null).1 emptyUsers reqAlice 7 3
    { rows := [rowOfRequest reqAlice 7 3] }
    rfl rfl rfl rfl rfl (by rfl)

end RustWave
